import Mathlib

/-!
# GRPC e-commerce platform: gateway dispatch and inventory handlers

A shallow embedding of

* `cmd/gateway/main.go`: the gin engine of `main` with its two catch-all routes, served by
  `net/http`, and the handlers `proxyInventory`, `proxyOrders` and `proxyRequest`;
* `inventory/service.go`: the pagination arithmetic of `listProducts` and the pairing
  loop of `getAllProductsWithPromotion`.

The outside world (URL parsing of `net/url`, the HTTP round trip of `http.Client`, the
document store) is passed in as explicit functions, so every handler is a total,
executable function from its inputs to the effects it produces. The parts of `net/http`,
gin and `strconv` that decide what the caller sees are written out after their Go source.
-/

namespace Gateway

/-! ## Data model -/

/-- Raw body bytes. -/
abbrev Bytes := List UInt8

/-- An `io.Reader` holding a body: the chunks it delivers, ending in EOF or in a read error. -/
inductive Reader where
  | eof
  | fail (err : String)
  | chunk (data : Bytes) (rest : Reader)
  deriving DecidableEq

/-- Go `ioutil.ReadAll`: everything delivered before EOF or the first error, and that error. -/
def ReadAll : Reader → Bytes × Option String
  | .eof => ([], none)
  | .fail err => ([], some err)
  | .chunk data rest => (data ++ (ReadAll rest).1, (ReadAll rest).2)

/-- A reader that delivers `b` and then EOF. -/
def Reader.ofBytes (b : Bytes) : Reader := .chunk b .eof

/-- Go `httpguts.IsTokenRune`: the characters of an HTTP token. -/
def isTokenRune (r : Char) : Bool :=
  r.isAlphanum || "!#$%&*+-.^_|~".data.contains r || r == Char.ofNat 39 || r == Char.ofNat 96

/-- Go `validMethod` of `net/http`: a non-empty string of token characters. -/
def validMethod (method : String) : Bool :=
  method.data.length > 0 && method.data.all isTokenRune

/-- A request method as `net/http` accepts it on a request line: any token (`http.ReadRequest`
refuses a request whose method is not one). -/
structure Method where
  name : String
  valid : validMethod name = true
  deriving DecidableEq

/-- Go `http.MethodGet`. -/
def Method.GET : Method := ⟨"GET", rfl⟩

/-- Go `http.MethodPost`. -/
def Method.POST : Method := ⟨"POST", rfl⟩

/-- Go `http.MethodOptions`. -/
def Method.OPTIONS : Method := ⟨"OPTIONS", rfl⟩

/-- Go `http.MethodConnect`. -/
def Method.CONNECT : Method := ⟨"CONNECT", rfl⟩

/-- The WebDAV method `PROPFIND`, a token outside the `net/http` method constants. -/
def Method.PROPFIND : Method := ⟨"PROPFIND", rfl⟩

/-- Go `http.Header`: canonical header name to its list of values. -/
abbrev Header := List (String × List String)

/-- Go `Header.Get` at a key already in canonical form: the first value, or the empty string. -/
def Header.Get (h : Header) (key : String) : String :=
  match h.lookup key with
  | some (v :: _) => v
  | _ => ""

/-- The fields of an inbound `*http.Request` that `net/http`, gin and the handlers read; a
value of this type is a request that `net/http` has read from the connection and accepted. -/
structure Request where
  Method : Method
  /-- `URL.Path`; it is `*` exactly when the request target (`RequestURI`) is `*` -/
  Path : String
  /-- `URL.RawQuery` -/
  RawQuery : String
  Header : Header
  Body : Reader
  deriving DecidableEq

/-- The `*http.Request` built by `http.NewRequest` and handed to `client.Do`. -/
structure OutboundRequest where
  Method : Method
  /-- The target URL string given to `http.NewRequest`. -/
  URL : String
  Header : Header
  Body : Reader
  deriving DecidableEq

/-- The `*http.Response` returned by `client.Do`. `http.ReadResponse` takes the status code
from three characters and refuses a negative one; the transport keeps informational
responses other than 101 to itself. -/
structure Response where
  StatusCode : Int
  Header : Header
  Body : Reader
  deriving DecidableEq

/-- The world outside the gateway process. -/
structure Env where
  /-- Go `url.Parse` as called inside `http.NewRequest`: `.error msg` when the target URL is
  rejected (for instance a control character in it). -/
  parseURL : String → Except String Unit
  /-- Go `(*http.Client).Do`: the backend response, or the transport error text. -/
  Do : OutboundRequest → Except String Response
  /-- Go `strconv.Quote`, the `%q` verb in the error text of `http.NewRequest` -/
  Quote : String → String

/-- The part of `*gin.Context` a handler reads: the request and the path parameters. -/
structure Context where
  Request : Request
  Params : List (String × String)
  deriving DecidableEq

/-- Go `c.Param(key)`: the value of the path parameter, or the empty string. -/
def Context.Param (c : Context) (key : String) : String :=
  (c.Params.lookup key).getD ""

/-- What ends up in the response body. -/
inductive Payload where
  /-- bytes written as they are (`c.Data`, gin's default 404 text) -/
  | raw (data : Bytes)
  /-- a `gin.H` object rendered as JSON (`c.JSON`) -/
  | json (obj : List (String × String))
  deriving DecidableEq

/-- A response as the caller gets it: the status, the headers set by the code that wrote
it, the body. -/
structure Reply where
  Status : Int
  Header : Header
  Body : Payload
  deriving DecidableEq

/-- What the caller of the gateway gets back. -/
inductive Outcome where
  /-- nothing was written -/
  | unwritten
  /-- a response -/
  | reply (r : Reply)
  /-- gin's `redirectTrailingSlash`: an `http.Redirect` with this code to the same URL with
  `/` appended -/
  | trailingSlashRedirect (code : Int)
  deriving DecidableEq

/-- The observable effects of serving one request: the outbound requests handed to
`client.Do`, in order, and what the caller gets. -/
structure Effects where
  calls : List OutboundRequest
  out : Outcome
  deriving DecidableEq

/-! ## gin rendering on the `net/http` response writer -/

/-- gin's `bodyAllowedForStatus`. -/
def bodyAllowedForStatus (status : Int) : Bool :=
  if 100 ≤ status ∧ status ≤ 199 then false
  else if status = 204 then false
  else if status = 304 then false
  else true

/-- Go `checkWriteHeaderCode` of `net/http`: `WriteHeader` panics on a code outside
100..999. -/
def validWriteHeaderCode (code : Int) : Bool := 100 ≤ code ∧ code ≤ 999

/-- gin's `c.Render(code, r)` as the caller sees it, for a render with the given content
type and payload.

`c.Status(code)` replaces the writer's default status 200 only by a `code > 0`. For a code
without body (`bodyAllowedForStatus`) gin sets `Content-Type` and writes the header, no
body. Otherwise the render sets `Content-Type` and writes the body, which first passes the
status to `WriteHeader` of `net/http`; that panics on a status outside 100..999, gin's
`Recovery` catches the panic but finds its own writer already marked written, so nothing
more is written and `net/http` finishes the response with 200 and no body. An informational
code other than 101, which `client.Do` never returns, is written as the status here. -/
def Render (code : Int) (contentType : String) (body : Payload) : Outcome :=
  let status := if code > 0 then code else 200
  if bodyAllowedForStatus code = false then
    .reply ⟨status, [("Content-Type", [contentType])], .raw []⟩
  else if validWriteHeaderCode status then
    .reply ⟨status, [("Content-Type", [contentType])], body⟩
  else
    .reply ⟨200, [("Content-Type", [contentType])], .raw []⟩

/-- Go `c.JSON(code, gin.H{...})`. -/
def JSON (code : Int) (obj : List (String × String)) : Outcome :=
  Render code "application/json; charset=utf-8" (.json obj)

/-- Go `c.Data(code, contentType, data)`. -/
def Data (code : Int) (contentType : String) (data : Bytes) : Outcome :=
  Render code contentType (.raw data)

/-- The bytes of an ASCII text. -/
def asciiBytes (s : String) : Bytes := s.data.map (fun ch => ch.toNat.toUInt8)

/-- The text of gin's default 404 body, `404 page not found`. -/
def default404Body : Bytes := asciiBytes "404 page not found"

/-- gin's `serveError(c, http.StatusNotFound, default404Body)`. -/
def serve404 : Outcome :=
  .reply ⟨404, [("Content-Type", ["text/plain"])], .raw default404Body⟩

/-! ## `cmd/gateway/main.go` -/

/-- `http.NewRequest(method, url, body)`: an empty method means GET, a method that is no
token is refused, then the URL is parsed; the new request has an empty header map. -/
def NewRequest (env : Env) (method : String) (url : String) (body : Reader) :
    Except String OutboundRequest :=
  let method := if method = "" then "GET" else method
  if h : validMethod method = true then
    match env.parseURL url with
    | .error err => .error err
    | .ok _ => .ok ⟨⟨method, h⟩, url, [], body⟩
  else .error ("net/http: invalid method " ++ env.Quote method)

/-- `proxyRequest(c, targetURL)`. -/
def proxyRequest (env : Env) (c : Context) (targetURL : String) : Effects :=
  match NewRequest env c.Request.Method.name targetURL c.Request.Body with
  | .error err => ⟨[], JSON 500 [("error", err)]⟩
  | .ok req0 =>
    let req : OutboundRequest := { req0 with Header := c.Request.Header }
    match env.Do req with
    | .error err => ⟨[req], JSON 502 [("error", err)]⟩
    | .ok resp =>
      let body := (ReadAll resp.Body).1
      ⟨[req], Data resp.StatusCode (resp.Header.Get "Content-Type") body⟩

/-- `proxyInventory(c)`. -/
def proxyInventory (env : Env) (c : Context) : Effects :=
  let targetURL := "http://localhost:8081" ++ c.Param "action"
  proxyRequest env c targetURL

/-- `proxyOrders(c)`. -/
def proxyOrders (env : Env) (c : Context) : Effects :=
  let targetURL := "http://localhost:8082" ++ c.Param "action"
  proxyRequest env c targetURL

/-- The handlers registered in `main`. -/
inductive HandlerName where
  | proxyInventory | proxyOrders
  deriving DecidableEq

/-- A catch-all route `mount/*param`. -/
structure Route where
  /-- the static part of the pattern, before `/*` -/
  mount : String
  /-- the name of the catch-all parameter -/
  param : String
  handler : HandlerName
  deriving DecidableEq

/-- The routes of `main`: `r.Any("/inventory/*action", proxyInventory)` and
`r.Any("/orders/*action", proxyOrders)`. -/
def routes : List Route :=
  [⟨"/inventory", "action", .proxyInventory⟩, ⟨"/orders", "action", .proxyOrders⟩]

/-- gin's `anyMethods`: the methods for which `Any` registers the route, one tree each. -/
def anyMethods : List String :=
  ["GET", "POST", "PUT", "PATCH", "HEAD", "OPTIONS", "DELETE", "CONNECT", "TRACE"]

/-- Go `strings.HasPrefix`. -/
def startsWith (s pre : String) : Bool := pre.data.isPrefixOf s.data

/-- Go `s[n:]`. -/
def sliceFrom (s : String) (n : Nat) : String := ⟨s.data.drop n⟩

/-- The result of gin's route lookup (`nodeValue`). -/
inductive NodeValue where
  /-- a handler was found, with the path parameters -/
  | found (h : HandlerName) (params : List (String × String))
  /-- no handler, but the path with a trailing slash added has one (`tsr`) -/
  | tsr
  /-- nothing -/
  | missing
  deriving DecidableEq

/-- gin's route lookup (`getValue`) over catch-all routes: `mount/*param` matches every path
that starts with `mount/`, the parameter being the path from that slash on; the path `mount`
itself has no handler and gets the trailing-slash recommendation. -/
def getValue : List Route → String → NodeValue
  | [], _ => .missing
  | r :: rest, path =>
    if startsWith path (r.mount ++ "/") then
      .found r.handler [(r.param, sliceFrom path r.mount.length)]
    else if path = r.mount then .tsr
    else getValue rest path

/-- Run a registered handler. -/
def runHandler (env : Env) : HandlerName → Context → Effects
  | .proxyInventory, c => proxyInventory env c
  | .proxyOrders, c => proxyOrders env c

/-- gin's `handleHTTPRequest` with the settings of `gin.Default()` (`RedirectTrailingSlash`
on, `RedirectFixedPath` and `HandleMethodNotAllowed` off): the tree of the request method
is looked up; a method without a tree, like a path without a handler, gets the 404. -/
def handleHTTPRequest (env : Env) (req : Request) : Effects :=
  if req.Method.name ∈ anyMethods then
    match getValue routes req.Path with
    | .found h params => runHandler env h ⟨req, params⟩
    | .tsr =>
      if req.Method.name ≠ "CONNECT" ∧ req.Path ≠ "/" then
        ⟨[], .trailingSlashRedirect (if req.Method.name = "GET" then 301 else 307)⟩
      else ⟨[], serve404⟩
    | .missing => ⟨[], serve404⟩
  else ⟨[], serve404⟩

/-! ## `net/http` in front of the engine (`r.Run`) -/

/-- Go `isTokenBoundary`. -/
def isTokenBoundary (b : Char) : Bool := b == ' ' || b == ',' || b == Char.ofNat 9

/-- Go `lower` of `internal/ascii`. -/
def lowerASCII (b : Char) : Char :=
  if 'A' ≤ b ∧ b ≤ 'Z' then Char.ofNat (b.toNat + 32) else b

/-- Go `ascii.EqualFold`. -/
def equalFold (s t : List Char) : Bool :=
  s.length == t.length && (s.zip t).all (fun p => lowerASCII p.1 == lowerASCII p.2)

/-- One round of the loop of `hasToken`, at start position `sp`. -/
def hasTokenAt (v token : List Char) (sp : Nat) : Bool :=
  let b := v.getD sp ' '
  let t0 := token.headD ' '
  if b ≠ t0 ∧ (b.toNat ||| 32) ≠ t0.toNat then false
  else if sp > 0 ∧ isTokenBoundary (v.getD (sp - 1) ' ') = false then false
  else if sp + token.length ≠ v.length
      ∧ isTokenBoundary (v.getD (sp + token.length) ' ') = false then false
  else equalFold ((v.drop sp).take token.length) token

/-- Go `hasToken` of `net/http`: whether the lower-case `token` occurs in `v`, compared
without case, between boundaries. -/
def hasToken (v token : String) : Bool :=
  if token.data.length > v.data.length ∨ token = "" then false
  else if v = token then true
  else (List.range (v.data.length - token.data.length + 1)).any
    (hasTokenAt v.data token.data)

/-- Go `(*Request).expectsContinue`. -/
def expectsContinue (req : Request) : Bool :=
  hasToken (req.Header.Get "Expect") "100-continue"

/-- The test of `conn.serve` for an `Expect` header other than `100-continue`. -/
def expectationFailed (req : Request) : Bool :=
  !expectsContinue req && req.Header.Get "Expect" != ""

/-- Go `sendExpectationFailed`. -/
def sendExpectationFailed : Outcome :=
  .reply ⟨417, [("Connection", ["close"])], .raw []⟩

/-- Go `globalOptionsHandler`, the answer of `net/http` to `OPTIONS *`. -/
def globalOptionsHandler : Outcome :=
  .reply ⟨200, [("Content-Length", ["0"])], .raw []⟩

/-- Go `serverHandler.ServeHTTP`: `OPTIONS *` is answered by `net/http`, everything else by
the gin engine. -/
def ServeHTTP (env : Env) (req : Request) : Effects :=
  if req.Path = "*" ∧ req.Method.name = "OPTIONS" then ⟨[], globalOptionsHandler⟩
  else handleHTTPRequest env req

/-- What the gateway started by `r.Run(":8080")` does with one request it has read
(`conn.serve` of `net/http`): the `Expect` check, then the server handler. -/
def serve (env : Env) (req : Request) : Effects :=
  if expectsContinue req then ServeHTTP env req
  else if req.Header.Get "Expect" ≠ "" then ⟨[], sendExpectationFailed⟩
  else ServeHTTP env req

/-- A transport for the examples: every URL parses except the empty one, and the backend
answers every request with `resp`. -/
def fixedEnv (resp : Response) : Env where
  parseURL := fun url => if url = "" then .error "empty url" else .ok ()
  Do := fun _ => .ok resp
  Quote := fun s => "\"" ++ s ++ "\""

/-- A transport whose backend cannot be reached. -/
def downEnv : Env where
  parseURL := fun _ => .ok ()
  Do := fun _ => .error "connection refused"
  Quote := fun s => "\"" ++ s ++ "\""

/-- A bodyless request. -/
def mkRequest (m : Method) (path query : String) : Request :=
  ⟨m, path, query, [], .eof⟩

/-- An orders backend answer to a created order, with a header besides `Content-Type`. -/
def orderCreated : Response :=
  ⟨201, [("Content-Type", ["application/json; charset=utf-8"]), ("X-Request-Id", ["r-17"])],
    Reader.ofBytes (asciiBytes "\x7b\"id\":\"o1\"\x7d")⟩

/-- A backend answer with the given status code and a two-byte body. -/
def withStatus (code : Int) : Response :=
  ⟨code, [("Content-Type", ["text/plain"])], Reader.ofBytes (asciiBytes "ok")⟩

/-- The request `POST path` with the order body of the spec's scenario. -/
def postOrder (path : String) : Request :=
  ⟨.POST, path, "", [("Content-Type", ["application/json"])],
    Reader.ofBytes (asciiBytes "\x7b\"products\":\x7b\"sku1\":2\x7d\x7d")⟩

/-- The status code the caller sees, when a response or redirect was written. -/
def Outcome.status : Outcome → Option Int
  | .unwritten => none
  | .reply r => some r.Status
  | .trailingSlashRedirect code => some code

end Gateway

namespace Inventory

/-! ## `inventory/service.go` -/

/-- A `float64`, kept as its bit pattern: the handlers modelled here only carry it. -/
abbrev Float64 := Nat

/-- A `time.Time`, as nanoseconds since the epoch. -/
abbrev Time := Int

/-- Go `Product`. -/
structure Product where
  ID : String
  Name : String
  Price : Float64
  Stock : Int
  Category : String
  deriving DecidableEq

/-- Go `Discount`. -/
structure Discount where
  ID : String
  Name : String
  Description : String
  DiscountPercentage : Float64
  ApplicableProducts : List String
  StartDate : Time
  EndDate : Time
  IsActive : Bool
  deriving DecidableEq

/-- Go `url.Values`, the parsed query string: key to its list of values. -/
abbrev Values := List (String × List String)

/-- gin `c.GetQuery(key)`: the first value of the key, when the key is present. -/
def GetQuery (q : Values) (key : String) : Option String :=
  match q.lookup key with
  | some (v :: _) => some v
  | _ => none

/-- gin `c.Query(key)`. -/
def Query (q : Values) (key : String) : String := (GetQuery q key).getD ""

/-- gin `c.DefaultQuery(key, defaultValue)`. -/
def DefaultQuery (q : Values) (key defaultValue : String) : String :=
  (GetQuery q key).getD defaultValue

/-- The largest `int64` (Go `int` on a 64-bit platform). -/
def maxInt64 : Int := 9223372036854775807

/-- The smallest `int64`. -/
def minInt64 : Int := -9223372036854775808

/-- The `int64` an exact result wraps around to. -/
def wrap64 (x : Int) : Int :=
  (x + 9223372036854775808) % 18446744073709551616 - 9223372036854775808

/-- The errors of `strconv`. -/
inductive NumError where
  | ErrSyntax | ErrRange
  deriving DecidableEq

/-- The digit loop of the fast path of `strconv.Atoi`: `ch -= '0'` on a byte, a syntax
error (`none`) when `ch > 9`, else `n = n*10 + int(ch)`. -/
def atoiDigits : List Char → Int → Option Int
  | [], n => some n
  | ch :: rest, n =>
    if ch.toNat < 48 ∨ 57 < ch.toNat then none
    else atoiDigits rest (n * 10 + ((ch.toNat - 48 : Nat) : Int))

/-- The largest `uint64`. -/
def maxUint64 : Nat := 18446744073709551615

/-- The digit value `strconv.ParseUint` gives a byte: a decimal digit, or a letter through
`lower(c) = c | ('x' - 'X')`; `none` in the `default` case. -/
def digitOf (c : Char) : Option Nat :=
  if 48 ≤ c.toNat ∧ c.toNat ≤ 57 then some (c.toNat - 48)
  else if 97 ≤ (c.toNat ||| 32) ∧ (c.toNat ||| 32) ≤ 122 then some ((c.toNat ||| 32) - 97 + 10)
  else none

/-- The loop of `strconv.ParseUint(s, 10, 64)` from the value `n` on: a byte that is no
decimal digit ends it with `ErrSyntax` and value 0, an overflow of the product or of the sum
ends it at once with `ErrRange` and the largest `uint64`, whatever follows. -/
def parseUintLoop : List Char → Nat → Nat × Option NumError
  | [], n => (n, none)
  | c :: rest, n =>
    match digitOf c with
    | none => (0, some .ErrSyntax)
    | some d =>
      if d ≥ 10 then (0, some .ErrSyntax)
      else if n ≥ maxUint64 / 10 + 1 then (maxUint64, some .ErrRange)
      else
        let n10 := n * 10
        let n1 := (n10 + d) % 18446744073709551616
        if n1 < n10 ∨ n1 > maxUint64 then (maxUint64, some .ErrRange)
        else parseUintLoop rest n1

/-- Go `strconv.ParseUint(s, 10, 64)`. -/
def ParseUint (s : List Char) : Nat × Option NumError :=
  if s = [] then (0, some .ErrSyntax) else parseUintLoop s 0

/-- Go `strconv.ParseInt(s, 10, 0)` on a 64-bit platform: the sign is picked off, the rest
goes through `ParseUint`; a syntax error gives 0, a value past the cutoff `1 << 63` gives
the nearest `int64` with `ErrRange`. -/
def ParseInt (s : List Char) : Int × Option NumError :=
  if s = [] then (0, some .ErrSyntax)
  else
    let neg := s.head? = some '-'
    let s1 := if s.head? = some '+' ∨ s.head? = some '-' then s.tail else s
    let un := ParseUint s1
    if un.2 = some .ErrSyntax then (0, some .ErrSyntax)
    else if ¬ neg ∧ un.1 ≥ 9223372036854775808 then (9223372036854775807, some .ErrRange)
    else if neg ∧ un.1 > 9223372036854775808 then (-9223372036854775808, some .ErrRange)
    else if neg then (-(un.1 : Int), none)
    else ((un.1 : Int), none)

/-- Go `strconv.Atoi` on a 64-bit platform: texts of 1 to 18 bytes take the fast path, all
others `ParseInt(s, 10, 0)`. -/
def Atoi (s : String) : Int × Option NumError :=
  let sLen := s.utf8ByteSize
  if 0 < sLen ∧ sLen < 19 then
    let s1 := if s.data.head? = some '-' ∨ s.data.head? = some '+' then s.data.tail else s.data
    if s1.length < 1 then (0, some .ErrSyntax)
    else
      match atoiDigits s1 0 with
      | none => (0, some .ErrSyntax)
      | some n => if s.data.head? = some '-' then (-n, none) else (n, none)
  else ParseInt s.data

/-- The `page` of `listProducts`: `strconv.Atoi` of the query value, its error dropped,
then raised to 1. -/
def pageOf (q : Values) : Int :=
  let page := (Atoi (DefaultQuery q "page" "1")).1
  if page < 1 then 1 else page

/-- The `limit` of `listProducts`: `strconv.Atoi` of the query value, its error dropped,
then reset to 10 outside 1..100. -/
def limitOf (q : Values) : Int :=
  let limit := (Atoi (DefaultQuery q "limit" "10")).1
  if limit < 1 ∨ limit > 100 then 10 else limit

/-- The `totalPages` of `listProducts`: `(totalItems + int64(limit) - 1) / int64(limit)` in
`int64` arithmetic. -/
def totalPagesOf (totalItems limit : Int) : Int :=
  Int.tdiv (wrap64 (wrap64 (totalItems + limit) - 1)) limit

/-- The `skip` of `listProducts`: `int64((page - 1) * limit)`. -/
def skipOf (page limit : Int) : Int := wrap64 (wrap64 (page - 1) * limit)

/-- The `bson.M` filter of `listProducts`. -/
structure Filter where
  category : Option String
  priceGte : Option Float64
  priceLte : Option Float64
  deriving DecidableEq

/-- The `metadata` object of the `listProducts` response. -/
structure Metadata where
  total_items : Int
  total_pages : Int
  current_page : Int
  limit : Int
  deriving DecidableEq

/-- The response of `listProducts`. -/
inductive ListReply where
  /-- `c.JSON(http.StatusInternalServerError, gin.H{"error": err.Error()})` -/
  | serverError (err : String)
  /-- `c.JSON(http.StatusOK, gin.H{"products": ..., "metadata": ...})` -/
  | ok (products : List Product) (metadata : Metadata)
  deriving DecidableEq

/-- The world outside the inventory handlers. -/
structure Store where
  /-- Go `strconv.ParseFloat(s, 64)`, `none` on error -/
  ParseFloat : String → Option Float64
  /-- Go `collection.CountDocuments(ctx, filter)` -/
  CountDocuments : Filter → Except String Int
  /-- Go `collection.Find(ctx, filter, opts)` with `SetLimit` and `SetSkip`, then
  `cursor.All` -/
  FindPage : Filter → (limit skip : Int) → Except String (List Product)
  /-- Go `discountCollection.Find(ctx, filter)` for the discounts active at the given time,
  then `cursor.All` -/
  FindActiveDiscounts : Time → Except String (List Discount)
  /-- Go `collection.Find(ctx, bson.M{"_id": bson.M{"$in": ids}})`, then `cursor.All` -/
  FindByIDs : List String → Except String (List Product)
  /-- the order in which `range` walks the keys of a Go map -/
  rangeOrder : List String → List String

/-- The filter built by `listProducts` from `category`, `min_price` and `max_price`. -/
def filterOf (env : Store) (q : Values) : Filter :=
  let category := Query q "category"
  let minPrice := Query q "min_price"
  let maxPrice := Query q "max_price"
  { category := if category ≠ "" then some category else none
    priceGte := if minPrice ≠ "" then env.ParseFloat minPrice else none
    priceLte := if maxPrice ≠ "" then env.ParseFloat maxPrice else none }

/-- `listProducts(c)`. -/
def listProducts (env : Store) (q : Values) : ListReply :=
  let page := pageOf q
  let limit := limitOf q
  let filter := filterOf env q
  match env.CountDocuments filter with
  | .error err => .serverError err
  | .ok totalItems =>
    let totalPages := totalPagesOf totalItems limit
    let skip := skipOf page limit
    match env.FindPage filter limit skip with
    | .error err => .serverError err
    | .ok products => .ok products ⟨totalItems, totalPages, page, limit⟩

/-- `productIDs[productID] = struct{}{}` on a map kept as its keys in insertion order. -/
def insertKey (m : List String) (k : String) : List String :=
  if k ∈ m then m else m ++ [k]

/-- The keys of `productIDs` after the two nested loops over the discounts. -/
def collectIDs (discounts : List Discount) : List String :=
  discounts.foldl (fun m discount => discount.ApplicableProducts.foldl insertKey m) []

/-- The inner loop of `getAllProductsWithPromotion` over `discount.ApplicableProducts`:
append the discount at the first `pid` equal to the product ID, then `break`. -/
def appendIfListed (applicable : List Discount) (discount : Discount) (productID : String) :
    List String → List Discount
  | [] => applicable
  | pid :: rest =>
    if pid = productID then applicable ++ [discount]
    else appendIfListed applicable discount productID rest

/-- The loop over `discounts` for one product. -/
def applicableTo (discounts : List Discount) (product : Product) : List Discount :=
  discounts.foldl
    (fun applicable discount =>
      appendIfListed applicable discount product.ID discount.ApplicableProducts) []

/-- Go `ProductWithDiscount`. -/
structure ProductWithDiscount where
  Product : Product
  Discounts : List Discount
  deriving DecidableEq

/-- The response of `getAllProductsWithPromotion`. -/
inductive PromotionReply where
  /-- `c.JSON(http.StatusInternalServerError, gin.H{"error": err.Error()})` -/
  | serverError (err : String)
  /-- `c.JSON(http.StatusOK, productsWithDiscounts)` -/
  | ok (productsWithDiscounts : List ProductWithDiscount)
  deriving DecidableEq

/-- What `getAllProductsWithPromotion` does: the ID lists it queried the product
collection with, and its response. -/
structure PromotionEffects where
  queried : List (List String)
  reply : PromotionReply
  deriving DecidableEq

/-- `getAllProductsWithPromotion(c)`, called at time `currentTime`. -/
def getAllProductsWithPromotion (env : Store) (currentTime : Time) : PromotionEffects :=
  match env.FindActiveDiscounts currentTime with
  | .error err => ⟨[], .serverError err⟩
  | .ok discounts =>
    let productIDs := collectIDs discounts
    let ids := env.rangeOrder productIDs
    match env.FindByIDs ids with
    | .error err => ⟨[ids], .serverError err⟩
    | .ok products =>
      let productsWithDiscounts : List ProductWithDiscount :=
        products.foldl
          (fun acc product => acc ++ [⟨product, applicableTo discounts product⟩]) []
      ⟨[ids], .ok productsWithDiscounts⟩

/-- An active discount that lists the product `p1` twice. -/
def discountA : Discount :=
  ⟨"d1", "spring", "spring sale", 10, ["p1", "p1", "p2"], 0, 100, true⟩

/-- A second active discount. -/
def discountB : Discount := ⟨"d2", "clearance", "stock clearance", 25, ["p2"], 0, 100, true⟩

/-- A product. -/
def productOne : Product := ⟨"p1", "pen", 3, 40, "office"⟩

/-- Another product. -/
def productTwo : Product := ⟨"p2", "ink", 7, 12, "office"⟩

/-- A store for the examples: `count` documents match every filter, every page holds
`products`, `discounts` are the active discounts, and `range` walks map keys in reverse
insertion order. -/
def sampleStore (count : Int) (products : List Product) (discounts : List Discount) : Store where
  ParseFloat := fun _ => none
  CountDocuments := fun _ => .ok count
  FindPage := fun _ _ _ => .ok products
  FindActiveDiscounts := fun _ => .ok discounts
  FindByIDs := fun _ => .ok products
  rangeOrder := List.reverse

end Inventory

namespace Gateway

/-! # Theorems -/

/-! ## Lemmas on the string helpers -/

theorem startsWith_iff (s pre : String) :
    startsWith s pre = true ↔ ∃ rest : String, s = pre ++ rest := by
  unfold startsWith
  rw [List.isPrefixOf_iff_prefix]
  constructor
  · rintro ⟨t, ht⟩
    exact ⟨⟨t⟩, String.ext (by simp [ht])⟩
  · rintro ⟨rest, rfl⟩
    exact ⟨rest.data, by simp⟩

theorem startsWith_append (pre rest : String) : startsWith (pre ++ rest) pre = true :=
  (startsWith_iff _ _).2 ⟨rest, rfl⟩

theorem not_startsWith_ne (s pre : String) (h : startsWith s pre = false) (rest : String) :
    s ≠ pre ++ rest := by
  intro he
  have := (startsWith_iff s pre).2 ⟨rest, he⟩
  rw [h] at this
  exact Bool.noConfusion this

theorem sliceFrom_append (pre rest : String) : sliceFrom (pre ++ rest) pre.length = rest := by
  apply String.ext
  show List.drop pre.data.length (pre ++ rest).data = rest.data
  rw [String.data_append, List.drop_left]

theorem getValue_inventory (rest : String) :
    getValue routes ("/inventory" ++ ("/" ++ rest))
      = .found .proxyInventory [("action", "/" ++ rest)] := by
  have h1 : startsWith ("/inventory" ++ ("/" ++ rest)) ("/inventory" ++ "/") = true := by
    rw [← String.append_assoc]; exact startsWith_append _ _
  have h2 : sliceFrom ("/inventory" ++ ("/" ++ rest)) "/inventory".length = "/" ++ rest :=
    sliceFrom_append _ _
  simp only [routes, getValue, h1, h2, if_true]

theorem orders_data : "/orders".data = ['/', 'o', 'r', 'd', 'e', 'r', 's'] := rfl

theorem inventory_data :
    "/inventory".data = ['/', 'i', 'n', 'v', 'e', 'n', 't', 'o', 'r', 'y'] := rfl

theorem star_data : "*".data = ['*'] := rfl

theorem orders_not_inventory (rest : String) :
    startsWith ("/orders" ++ ("/" ++ rest)) ("/inventory" ++ "/") = false := by
  cases h : startsWith ("/orders" ++ ("/" ++ rest)) ("/inventory" ++ "/") with
  | false => rfl
  | true =>
    obtain ⟨t, ht⟩ := (startsWith_iff _ _).1 h
    have hd := congrArg String.data ht
    simp only [String.data_append, orders_data, inventory_data] at hd
    simp at hd

theorem getValue_orders (rest : String) :
    getValue routes ("/orders" ++ ("/" ++ rest))
      = .found .proxyOrders [("action", "/" ++ rest)] := by
  have h0 := orders_not_inventory rest
  have hne : ¬ ("/orders" ++ ("/" ++ rest) = "/inventory") := by
    intro h
    have hd := congrArg String.data h
    simp only [String.data_append, orders_data, inventory_data] at hd
    simp at hd
  have h1 : startsWith ("/orders" ++ ("/" ++ rest)) ("/orders" ++ "/") = true := by
    rw [← String.append_assoc]; exact startsWith_append _ _
  have h2 : sliceFrom ("/orders" ++ ("/" ++ rest)) "/orders".length = "/" ++ rest :=
    sliceFrom_append _ _
  simp only [routes, getValue, h0, hne, h1, h2, if_true, if_false, Bool.false_eq_true]

theorem getValue_missing (path : String)
    (h1 : path ≠ "/inventory") (h2 : path ≠ "/orders")
    (h3 : ∀ rest : String, path ≠ "/inventory/" ++ rest)
    (h4 : ∀ rest : String, path ≠ "/orders/" ++ rest) :
    getValue routes path = .missing := by
  have e1 : startsWith path ("/inventory" ++ "/") = false := by
    cases h : startsWith path ("/inventory" ++ "/") with
    | false => rfl
    | true =>
      obtain ⟨t, ht⟩ := (startsWith_iff _ _).1 h
      exact absurd ht (h3 t)
  have e2 : startsWith path ("/orders" ++ "/") = false := by
    cases h : startsWith path ("/orders" ++ "/") with
    | false => rfl
    | true =>
      obtain ⟨t, ht⟩ := (startsWith_iff _ _).1 h
      exact absurd ht (h4 t)
  simp only [routes, getValue, e1, e2, h1, h2, if_false, Bool.false_eq_true]

theorem getValue_tsr (path : String) (h : path = "/inventory" ∨ path = "/orders") :
    getValue routes path = .tsr := by
  rcases h with rfl | rfl <;> decide

theorem slash_path_ne_star (mount rest : String) (hm : mount.data.head? = some '/') :
    mount ++ ("/" ++ rest) ≠ "*" := by
  intro h
  have hd := congrArg String.data h
  simp only [String.data_append, star_data] at hd
  cases hmd : mount.data with
  | nil => rw [hmd] at hm; simp at hm
  | cons a t =>
    rw [hmd] at hm hd
    simp only [List.head?_cons, Option.some.injEq] at hm
    rw [hm] at hd
    simp at hd

/-! ## Lemmas on the handlers -/

theorem NewRequest_method (env : Env) (m : Method) (url : String) (body : Reader) :
    NewRequest env m.name url body =
      match env.parseURL url with
      | .error err => .error err
      | .ok _ => .ok ⟨m, url, [], body⟩ := by
  have hne : m.name ≠ "" := by
    intro h
    have hv := m.valid
    rw [h] at hv
    exact absurd hv (by decide)
  unfold NewRequest
  simp only [hne, if_false]
  rw [dif_pos m.valid]

theorem proxyRequest_calls (env : Env) (c : Context) (url : String) :
    (proxyRequest env c url).calls =
      match env.parseURL url with
      | .error _ => []
      | .ok _ => [⟨c.Request.Method, url, c.Request.Header, c.Request.Body⟩] := by
  unfold proxyRequest
  rw [NewRequest_method]
  cases hp : env.parseURL url with
  | error e => rfl
  | ok u =>
    simp only []
    split <;> rfl

theorem proxyRequest_calls_url (env : Env) (c : Context) (url : String) :
    ∀ out ∈ (proxyRequest env c url).calls, out.URL = url := by
  intro out hout
  rw [proxyRequest_calls] at hout
  cases hp : env.parseURL url with
  | error e => simp [hp] at hout
  | ok u =>
    simp only [hp, List.mem_singleton] at hout
    subst hout
    rfl

theorem proxyRequest_relay (env : Env) (c : Context) (url : String)
    (req : OutboundRequest) (resp : Response)
    (hreq : NewRequest env c.Request.Method.name url c.Request.Body = .ok req)
    (hdo : env.Do { req with Header := c.Request.Header } = .ok resp) :
    proxyRequest env c url =
      ⟨[{ req with Header := c.Request.Header }],
        Data resp.StatusCode (resp.Header.Get "Content-Type") (ReadAll resp.Body).1⟩ := by
  unfold proxyRequest
  rw [hreq]
  simp only [hdo]

theorem handle_inventory (env : Env) (req : Request) (rest : String)
    (hm : req.Method.name ∈ anyMethods)
    (hp : req.Path = "/inventory" ++ ("/" ++ rest)) :
    handleHTTPRequest env req
      = proxyRequest env ⟨req, [("action", "/" ++ rest)]⟩
          ("http://localhost:8081" ++ ("/" ++ rest)) := by
  unfold handleHTTPRequest
  rw [if_pos hm, hp, getValue_inventory]
  rfl

theorem handle_orders (env : Env) (req : Request) (rest : String)
    (hm : req.Method.name ∈ anyMethods)
    (hp : req.Path = "/orders" ++ ("/" ++ rest)) :
    handleHTTPRequest env req
      = proxyRequest env ⟨req, [("action", "/" ++ rest)]⟩
          ("http://localhost:8082" ++ ("/" ++ rest)) := by
  unfold handleHTTPRequest
  rw [if_pos hm, hp, getValue_orders]
  rfl

theorem serve_eq_ServeHTTP (env : Env) (req : Request) (he : expectationFailed req = false) :
    serve env req = ServeHTTP env req := by
  unfold serve
  unfold expectationFailed at he
  cases hc : expectsContinue req with
  | true => simp
  | false =>
    rw [hc] at he
    have hget : req.Header.Get "Expect" = "" := by simpa using he
    simp [hget]

theorem serve_eq_handle (env : Env) (req : Request) (he : expectationFailed req = false)
    (hopt : ¬ (req.Path = "*" ∧ req.Method.name = "OPTIONS")) :
    serve env req = handleHTTPRequest env req := by
  rw [serve_eq_ServeHTTP env req he]
  unfold ServeHTTP
  rw [if_neg hopt]

theorem serve_inventory (env : Env) (req : Request) (rest : String)
    (hm : req.Method.name ∈ anyMethods) (he : expectationFailed req = false)
    (hp : req.Path = "/inventory" ++ ("/" ++ rest)) :
    serve env req
      = proxyRequest env ⟨req, [("action", "/" ++ rest)]⟩
          ("http://localhost:8081" ++ ("/" ++ rest)) := by
  rw [serve_eq_handle env req he, handle_inventory env req rest hm hp]
  rintro ⟨h1, _⟩
  rw [hp] at h1
  exact slash_path_ne_star "/inventory" rest rfl h1

theorem serve_orders (env : Env) (req : Request) (rest : String)
    (hm : req.Method.name ∈ anyMethods) (he : expectationFailed req = false)
    (hp : req.Path = "/orders" ++ ("/" ++ rest)) :
    serve env req
      = proxyRequest env ⟨req, [("action", "/" ++ rest)]⟩
          ("http://localhost:8082" ++ ("/" ++ rest)) := by
  rw [serve_eq_handle env req he, handle_orders env req rest hm hp]
  rintro ⟨h1, _⟩
  rw [hp] at h1
  exact slash_path_ne_star "/orders" rest rfl h1

/-! ## The claims on the gateway -/

/-- C1 (counterexample): `PROPFIND /inventory/products/42` is not dispatched, gin has no
tree for the method and answers 404 without an outbound call; and a GET of the same path
with the header `Expect: 103-early` is answered 417 by `net/http`, again without a call. -/
theorem C1_mount_dispatch_counterexample :
    serve (fixedEnv (withStatus 200)) (mkRequest .PROPFIND "/inventory/products/42" "")
      = ⟨[], serve404⟩
    ∧ serve (fixedEnv (withStatus 200))
        ⟨.GET, "/inventory/products/42", "", [("Expect", ["103-early"])], .eof⟩
      = ⟨[], sendExpectationFailed⟩ := by
  decide

/-- C1 (amended): a request with one of the nine methods that `Any` registers, which
`net/http` passes on (no `Expect` header other than `100-continue`), and whose path is a
mount point followed by `/` and any rest, is handled by that mount point's proxy handler;
the target URL given to `proxyRequest`, and so the URL of every outbound call, is the
backend base URL followed by the remainder path, which is the original path without the
mount prefix and keeps its leading `/`; and when that URL parses exactly one outbound call
is made, to it. -/
theorem C1_mount_dispatch (env : Env) (req : Request) (rest : String)
    (hm : req.Method.name ∈ anyMethods) (he : expectationFailed req = false) :
    (serve env { req with Path := "/inventory" ++ ("/" ++ rest) }
        = proxyRequest env
            ⟨{ req with Path := "/inventory" ++ ("/" ++ rest) }, [("action", "/" ++ rest)]⟩
            ("http://localhost:8081" ++ ("/" ++ rest))
      ∧ sliceFrom ("/inventory" ++ ("/" ++ rest)) "/inventory".length = "/" ++ rest
      ∧ (serve env { req with Path := "/inventory" ++ ("/" ++ rest) }).calls.all
          (fun out => out.URL = "http://localhost:8081" ++ ("/" ++ rest))
      ∧ (∀ u, env.parseURL ("http://localhost:8081" ++ ("/" ++ rest)) = .ok u →
          (serve env { req with Path := "/inventory" ++ ("/" ++ rest) }).calls
            = [⟨req.Method, "http://localhost:8081" ++ ("/" ++ rest), req.Header, req.Body⟩]))
    ∧ (serve env { req with Path := "/orders" ++ ("/" ++ rest) }
        = proxyRequest env
            ⟨{ req with Path := "/orders" ++ ("/" ++ rest) }, [("action", "/" ++ rest)]⟩
            ("http://localhost:8082" ++ ("/" ++ rest))
      ∧ sliceFrom ("/orders" ++ ("/" ++ rest)) "/orders".length = "/" ++ rest
      ∧ (serve env { req with Path := "/orders" ++ ("/" ++ rest) }).calls.all
          (fun out => out.URL = "http://localhost:8082" ++ ("/" ++ rest))
      ∧ (∀ u, env.parseURL ("http://localhost:8082" ++ ("/" ++ rest)) = .ok u →
          (serve env { req with Path := "/orders" ++ ("/" ++ rest) }).calls
            = [⟨req.Method, "http://localhost:8082" ++ ("/" ++ rest), req.Header, req.Body⟩])) := by
  have hi := serve_inventory env { req with Path := "/inventory" ++ ("/" ++ rest) } rest hm he rfl
  have ho := serve_orders env { req with Path := "/orders" ++ ("/" ++ rest) } rest hm he rfl
  refine ⟨⟨hi, sliceFrom_append _ _, ?_, ?_⟩, ⟨ho, sliceFrom_append _ _, ?_, ?_⟩⟩
  · rw [hi, List.all_eq_true]
    intro out hout
    simpa using proxyRequest_calls_url env _ _ out hout
  · intro u hu
    rw [hi, proxyRequest_calls, hu]
  · rw [ho, List.all_eq_true]
    intro out hout
    simpa using proxyRequest_calls_url env _ _ out hout
  · intro u hu
    rw [ho, proxyRequest_calls, hu]

/-- C1 (amended) at `GET /inventory/products/42`: one outbound call, to
`http://localhost:8081/products/42`. -/
theorem C1_mount_dispatch_witness :
    (serve (fixedEnv (withStatus 200)) (mkRequest .GET "/inventory/products/42" "")).calls
      = [⟨.GET, "http://localhost:8081/products/42", [], .eof⟩] :=
  (C1_mount_dispatch (fixedEnv (withStatus 200)) (mkRequest .GET "/inventory/products/42" "")
    "products/42" (by decide) (by decide)).1.2.2.2 () rfl

/-- C2 (counterexample): `OPTIONS *` matches neither mount point, and the caller gets 200:
`net/http` answers it before the engine is asked. A `GET /unknown/path` that carries
`Expect: 103-early` gets 417. -/
theorem C2_unmatched_counterexample :
    serve (fixedEnv (withStatus 200)) (mkRequest .OPTIONS "*" "") = ⟨[], globalOptionsHandler⟩
    ∧ (serve (fixedEnv (withStatus 200)) (mkRequest .OPTIONS "*" "")).out.status = some 200
    ∧ (serve (fixedEnv (withStatus 200))
        ⟨.GET, "/unknown/path", "", [("Expect", ["103-early"])], .eof⟩).out.status
        = some 417 := by
  decide

/-- C2 (amended): a request that `net/http` passes to the engine (it is not `OPTIONS *` and
has no `Expect` header other than `100-continue`) and whose path neither equals
`/inventory` or `/orders` nor starts with `/inventory/` or `/orders/` finds no handler: the
gateway answers with gin's 404 and makes no outbound call. -/
theorem C2_unmatched_not_found (env : Env) (req : Request)
    (he : expectationFailed req = false)
    (hopt : ¬ (req.Path = "*" ∧ req.Method.name = "OPTIONS"))
    (h1 : req.Path ≠ "/inventory") (h2 : req.Path ≠ "/orders")
    (h3 : ∀ rest : String, req.Path ≠ "/inventory/" ++ rest)
    (h4 : ∀ rest : String, req.Path ≠ "/orders/" ++ rest) :
    getValue routes req.Path = .missing
      ∧ serve env req = ⟨[], serve404⟩
      ∧ (serve env req).calls = []
      ∧ (serve env req).out.status = some 404 := by
  have hm := getValue_missing req.Path h1 h2 h3 h4
  have hh : serve env req = ⟨[], serve404⟩ := by
    rw [serve_eq_handle env req he hopt]
    unfold handleHTTPRequest
    rw [hm]
    split <;> rfl
  exact ⟨hm, hh, by rw [hh], by rw [hh]; rfl⟩

/-- C2 (amended) at `GET /unknown/path`. -/
theorem C2_unmatched_not_found_witness :
    serve downEnv (mkRequest .GET "/unknown/path" "") = ⟨[], serve404⟩
      ∧ (serve downEnv (mkRequest .GET "/unknown/path" "")).out.status = some 404 :=
  have h := C2_unmatched_not_found downEnv (mkRequest .GET "/unknown/path" "")
    (by decide) (by decide) (by decide) (by decide)
    (not_startsWith_ne _ _ (by decide)) (not_startsWith_ne _ _ (by decide))
  ⟨h.2.1, h.2.2.2⟩

/-- C4 (the code at the failing input): the query string of the inbound request is never
read. `GET /inventory/products?category=x&page=2` produces the outbound request for
`http://localhost:8081/products`, the same as a request without a query string. -/
theorem C4_query_string_dropped :
    (handleHTTPRequest (fixedEnv ⟨200, [], .eof⟩)
        (mkRequest .GET "/inventory/products" "category=x&page=2")).calls
      = [⟨.GET, "http://localhost:8081/products", [], .eof⟩]
    ∧ ∀ (env : Env) (req : Request) (q : String),
        (handleHTTPRequest env { req with RawQuery := q }).calls
          = (handleHTTPRequest env { req with RawQuery := "" }).calls := by
  refine ⟨by decide, ?_⟩
  intro env req q
  unfold handleHTTPRequest
  simp only []
  split
  · cases getValue routes req.Path with
    | found h params =>
      cases h <;>
        simp only [runHandler, proxyInventory, proxyOrders, proxyRequest_calls, Context.Param]
    | tsr => rfl
    | missing => rfl
  · rfl

/-- C6 (counterexample): `POST /orders`, with the orders backend ready to answer 201, is
not proxied. The gateway makes no outbound call and answers with a 307 redirect; a
`GET /inventory` gets a 301 redirect. -/
theorem C6_exact_mount_counterexample :
    serve (fixedEnv orderCreated) (postOrder "/orders") = ⟨[], .trailingSlashRedirect 307⟩
    ∧ (serve (fixedEnv orderCreated) (postOrder "/orders")).out.status ≠ some 201
    ∧ serve (fixedEnv orderCreated) (mkRequest .GET "/inventory" "")
      = ⟨[], .trailingSlashRedirect 301⟩ := by
  decide

/-- C6 (amended): a request that `net/http` passes on (no `Expect` header other than
`100-continue`) and whose path equals a mount point exactly finds no handler, only the
trailing-slash recommendation: no outbound call is made, and the answer is a redirect with
status 301 for GET and 307 for POST, PUT, PATCH, HEAD, OPTIONS, DELETE and TRACE, and the
404 for CONNECT and for every method `Any` does not register. The rule matches from the
slash after the mount point on: `POST /orders/orders` is sent to
`http://localhost:8082/orders`, and when the backend answers 201 with some body the caller
gets status 201 and that body. -/
theorem C6_exact_mount_redirect (env : Env) (req : Request)
    (he : expectationFailed req = false)
    (h : req.Path = "/inventory" ∨ req.Path = "/orders") :
    getValue routes req.Path = .tsr
    ∧ (serve env req).calls = []
    ∧ (serve env req).out
        = (if req.Method.name ∈ anyMethods ∧ req.Method.name ≠ "CONNECT" then
            .trailingSlashRedirect (if req.Method.name = "GET" then 301 else 307)
           else serve404)
    ∧ (∀ (resp : Response) (body : Bytes),
        env.parseURL "http://localhost:8082/orders" = .ok () →
        env.Do ⟨.POST, "http://localhost:8082/orders", (postOrder "/orders/orders").Header,
            (postOrder "/orders/orders").Body⟩ = .ok resp →
        resp.StatusCode = 201 → ReadAll resp.Body = (body, none) →
        ∃ r : Reply, (serve env (postOrder "/orders/orders")).out = .reply r
          ∧ r.Status = 201 ∧ r.Body = .raw body) := by
  have ht := getValue_tsr req.Path h
  have hne : req.Path ≠ "/" := by
    rcases h with h | h <;> rw [h] <;> decide
  have hstar : ¬ (req.Path = "*" ∧ req.Method.name = "OPTIONS") := by
    rintro ⟨h1, _⟩
    rcases h with h | h <;> rw [h] at h1 <;> exact absurd h1 (by decide)
  have hs := serve_eq_handle env req he hstar
  refine ⟨ht, ?_, ?_, ?_⟩
  · rw [hs]
    unfold handleHTTPRequest
    rw [ht]
    simp only []
    split
    · split <;> rfl
    · rfl
  · rw [hs]
    unfold handleHTTPRequest
    rw [ht]
    simp only []
    by_cases hm : req.Method.name ∈ anyMethods
    · by_cases hc : req.Method.name = "CONNECT"
      · simp [hm, hc]
      · simp [hm, hc, hne]
    · simp [hm]
  · intro resp body hp hdo hstat hb
    have hh : serve env (postOrder "/orders/orders")
        = proxyRequest env ⟨postOrder "/orders/orders", [("action", "/" ++ "orders")]⟩
            ("http://localhost:8082" ++ ("/" ++ "orders")) :=
      serve_orders env _ "orders" (by decide) (by decide) (by decide)
    have hurl : "http://localhost:8082" ++ ("/" ++ "orders") = "http://localhost:8082/orders" := by
      decide
    rw [hh, hurl]
    have hreq : NewRequest env (postOrder "/orders/orders").Method.name
        "http://localhost:8082/orders" (postOrder "/orders/orders").Body
        = .ok ⟨.POST, "http://localhost:8082/orders", [], (postOrder "/orders/orders").Body⟩ := by
      rw [NewRequest_method, hp]
      rfl
    rw [proxyRequest_relay env _ _ _ resp hreq hdo, hb, hstat]
    exact ⟨_, rfl, rfl, rfl⟩

/-- C6 (amended) at `POST /orders` and `POST /orders/orders` against a backend that answers
201. -/
theorem C6_exact_mount_redirect_witness :
    (serve (fixedEnv orderCreated) (postOrder "/orders")).calls = []
    ∧ (serve (fixedEnv orderCreated) (postOrder "/orders")).out = .trailingSlashRedirect 307
    ∧ ∃ r : Reply,
        (serve (fixedEnv orderCreated) (postOrder "/orders/orders")).out = .reply r
        ∧ r.Status = 201 ∧ r.Body = .raw (asciiBytes "\x7b\"id\":\"o1\"\x7d") :=
  have h := C6_exact_mount_redirect (fixedEnv orderCreated) (postOrder "/orders")
    (by decide) (Or.inr rfl)
  ⟨h.2.1, h.2.2.1.trans (by decide),
   h.2.2.2 orderCreated (asciiBytes "\x7b\"id\":\"o1\"\x7d") rfl rfl rfl (by decide)⟩

/-- C8: every outbound request made by `proxyRequest` has the method, the header mapping
and the body of the inbound request, and the target URL it was given; there is one such
request whenever the outbound request could be built. -/
theorem C8_outbound_frame (env : Env) (c : Context) (targetURL : String)
    (out : OutboundRequest) (h : out ∈ (proxyRequest env c targetURL).calls) :
    (out.Method = c.Request.Method ∧ out.Header = c.Request.Header
      ∧ out.Body = c.Request.Body ∧ out.URL = targetURL)
    ∧ (proxyRequest env c targetURL).calls
        = [⟨c.Request.Method, targetURL, c.Request.Header, c.Request.Body⟩] := by
  rw [proxyRequest_calls] at h ⊢
  cases hp : env.parseURL targetURL with
  | error e => simp [hp] at h
  | ok u =>
    simp only [hp, List.mem_singleton] at h ⊢
    subst h
    exact ⟨⟨rfl, rfl, rfl, rfl⟩, trivial⟩

/-- C8 at `POST /orders/orders` with the order body and a `Content-Type` header. -/
theorem C8_outbound_frame_witness :
    (handleHTTPRequest (fixedEnv orderCreated) (postOrder "/orders/orders")).calls
      = [⟨.POST, "http://localhost:8082/orders", [("Content-Type", ["application/json"])],
          Reader.ofBytes (asciiBytes "\x7b\"products\":\x7b\"sku1\":2\x7d\x7d")⟩] :=
  (C8_outbound_frame (fixedEnv orderCreated)
    ⟨postOrder "/orders/orders", [("action", "/orders")]⟩ "http://localhost:8082/orders"
    ⟨.POST, "http://localhost:8082/orders", [("Content-Type", ["application/json"])],
      Reader.ofBytes (asciiBytes "\x7b\"products\":\x7b\"sku1\":2\x7d\x7d")⟩
    (by decide)).2

end Gateway

namespace Inventory

/-! ## Pagination of `listProducts` -/

theorem ParseInt_result (s : List Char) :
    (ParseInt s).2 = none
      ∨ ((ParseInt s).2 = some .ErrSyntax ∧ (ParseInt s).1 = 0)
      ∨ ((ParseInt s).2 = some .ErrRange
          ∧ ((ParseInt s).1 = maxInt64 ∨ (ParseInt s).1 = minInt64)) := by
  unfold ParseInt
  simp only []
  split_ifs <;> simp [maxInt64, minInt64]

theorem Atoi_result (s : String) :
    (Atoi s).2 = none
      ∨ ((Atoi s).2 = some .ErrSyntax ∧ (Atoi s).1 = 0)
      ∨ ((Atoi s).2 = some .ErrRange ∧ ((Atoi s).1 = maxInt64 ∨ (Atoi s).1 = minInt64)) := by
  unfold Atoi
  simp only []
  by_cases hlen : 0 < s.utf8ByteSize ∧ s.utf8ByteSize < 19
  · rw [if_pos hlen]
    split_ifs <;> first | simp | (split <;> simp)
  · rw [if_neg hlen]
    exact ParseInt_result s.data

theorem Atoi_in_range_no_error (s : String) (h1 : 1 ≤ (Atoi s).1) (h2 : (Atoi s).1 ≤ 100) :
    (Atoi s).2 = none := by
  rcases Atoi_result s with h | ⟨_, h⟩ | ⟨_, h | h⟩
  · exact h
  · omega
  · rw [h] at h2; exact absurd h2 (by decide)
  · rw [h] at h1; exact absurd h1 (by decide)

theorem Atoi_syntax_value (s : String) (h : (Atoi s).2 = some .ErrSyntax) : (Atoi s).1 = 0 := by
  rcases Atoi_result s with h0 | ⟨_, hv⟩ | ⟨hr, _⟩
  · rw [h0] at h; exact absurd h (by decide)
  · exact hv
  · rw [hr] at h; exact absurd h (by decide)

theorem totalPagesOf_eq (total limit : Int) (h0 : 0 ≤ total) (h1 : 1 ≤ limit)
    (hmax : total + limit - 1 ≤ maxInt64) :
    totalPagesOf total limit = (total + limit - 1) / limit := by
  unfold totalPagesOf
  have hw : wrap64 (wrap64 (total + limit) - 1) = total + limit - 1 := by
    unfold wrap64
    unfold maxInt64 at hmax
    omega
  rw [hw]
  exact Int.tdiv_eq_ediv (by omega) (by omega)

theorem ceil_div_spec (total limit : Int) (h0 : 0 ≤ total) (h1 : 1 ≤ limit) :
    0 ≤ (total + limit - 1) / limit
    ∧ total ≤ (total + limit - 1) / limit * limit
    ∧ (∀ n : Int, 0 ≤ n → total ≤ n * limit → (total + limit - 1) / limit ≤ n)
    ∧ (total = 0 → (total + limit - 1) / limit = 0) := by
  have hpos : 0 < limit := by omega
  have hlt : total + limit - 1 < ((total + limit - 1) / limit + 1) * limit := by
    have := Int.lt_ediv_add_one_mul_self (total + limit - 1) hpos
    linarith
  refine ⟨Int.ediv_nonneg (by omega) (by omega), ?_, ?_, ?_⟩
  · have hexp : ((total + limit - 1) / limit + 1) * limit
        = (total + limit - 1) / limit * limit + limit := by ring
    rw [hexp] at hlt
    omega
  · intro n _ hn
    have : (total + limit - 1) / limit < n + 1 := by
      rw [Int.ediv_lt_iff_lt_mul hpos]
      have hexp : (n + 1) * limit = n * limit + limit := by ring
      rw [hexp]
      omega
    omega
  · intro ht
    subst ht
    apply Int.ediv_eq_zero_of_lt <;> omega

/-- C9 (counterexample): the page value `9223372036854775808` does not parse (`Atoi`
reports a range error), yet the effective page is 9223372036854775807 and not 1, as the
response to `page=9223372036854775808&limit=1` reports; the same holds for the page value
`99999999999999999999x`; and with 9223372036854775807 items and the default limit 10 the
reported `total_pages` is negative. -/
theorem C9_pagination_counterexample :
    Atoi "9223372036854775808" = (9223372036854775807, some .ErrRange)
    ∧ pageOf [("page", ["9223372036854775808"])] = 9223372036854775807
    ∧ pageOf [("page", ["9223372036854775808"])] ≠ 1
    ∧ skipOf 9223372036854775807 1 = 9223372036854775806
    ∧ listProducts (sampleStore 3 [] []) [("page", ["9223372036854775808"]), ("limit", ["1"])]
        = .ok [] ⟨3, 3, 9223372036854775807, 1⟩
    ∧ Atoi "99999999999999999999x" = (9223372036854775807, some .ErrRange)
    ∧ pageOf [("page", ["99999999999999999999x"])] = 9223372036854775807
    ∧ listProducts (sampleStore 9223372036854775807 [] []) []
        = .ok [] ⟨9223372036854775807, -922337203685477580, 1, 10⟩ := by
  decide

/-- C9 (amended): the effective limit is the requested limit when `strconv.Atoi` parses it
to an integer in 1..100 and 10 otherwise, so it is never zero; the effective page is the
requested page when `strconv.Atoi` parses it to an integer at least 1, and is 1 when the
value is missing, when `strconv.Atoi` rejects it with a syntax error, or when it parses to
an integer below 1; and for `0 ≤ total_items` with
`total_items + limit - 1 ≤ 9223372036854775807` the reported `total_pages` is the least
`n ≥ 0` with `n * limit ≥ total_items` (0 when there are no items). -/
theorem C9_pagination (q : Values) :
    (1 ≤ limitOf q ∧ limitOf q ≤ 100)
    ∧ (∀ n, Atoi (DefaultQuery q "limit" "10") = (n, none) → 1 ≤ n → n ≤ 100 → limitOf q = n)
    ∧ ((¬ ∃ n, Atoi (DefaultQuery q "limit" "10") = (n, none) ∧ 1 ≤ n ∧ n ≤ 100) →
        limitOf q = 10)
    ∧ (GetQuery q "limit" = none → limitOf q = 10)
    ∧ (∀ n, Atoi (DefaultQuery q "page" "1") = (n, none) → 1 ≤ n → pageOf q = n)
    ∧ (∀ n, Atoi (DefaultQuery q "page" "1") = (n, none) → n < 1 → pageOf q = 1)
    ∧ ((Atoi (DefaultQuery q "page" "1")).2 = some .ErrSyntax → pageOf q = 1)
    ∧ (GetQuery q "page" = none → pageOf q = 1)
    ∧ (∀ (env : Store) (total : Int) (products : List Product),
        0 ≤ total → total + limitOf q - 1 ≤ maxInt64 →
        env.CountDocuments (filterOf env q) = .ok total →
        env.FindPage (filterOf env q) (limitOf q) (skipOf (pageOf q) (limitOf q))
          = .ok products →
        ∃ md : Metadata, listProducts env q = .ok products md
          ∧ md.limit = limitOf q ∧ md.current_page = pageOf q ∧ md.total_items = total
          ∧ 0 ≤ md.total_pages
          ∧ total ≤ md.total_pages * md.limit
          ∧ (∀ n : Int, 0 ≤ n → total ≤ n * md.limit → md.total_pages ≤ n)
          ∧ (total = 0 → md.total_pages = 0)) := by
  have hb : 1 ≤ limitOf q ∧ limitOf q ≤ 100 := by
    unfold limitOf
    simp only []
    split_ifs with h
    · omega
    · omega
  refine ⟨hb, ?_, ?_, ?_, ?_, ?_, ?_, ?_, ?_⟩
  · intro n hn h1 h2
    unfold limitOf
    simp only [hn]
    rw [if_neg (by omega)]
  · intro hne
    unfold limitOf
    simp only []
    split_ifs with h
    · rfl
    · exfalso
      apply hne
      refine ⟨(Atoi (DefaultQuery q "limit" "10")).1, ?_, by omega, by omega⟩
      have := Atoi_in_range_no_error (DefaultQuery q "limit" "10") (by omega) (by omega)
      exact Prod.ext rfl this
  · intro hq
    unfold limitOf DefaultQuery
    rw [hq]
    decide
  · intro n hn h1
    unfold pageOf
    simp only [hn]
    rw [if_neg (by omega)]
  · intro n hn h1
    unfold pageOf
    simp only [hn]
    rw [if_pos h1]
  · intro hs
    unfold pageOf
    simp only [Atoi_syntax_value _ hs]
    decide
  · intro hq
    unfold pageOf DefaultQuery
    rw [hq]
    decide
  · intro env total products h0 hmax hcount hfind
    have htp := totalPagesOf_eq total (limitOf q) h0 hb.1 hmax
    have hc := ceil_div_spec total (limitOf q) h0 hb.1
    refine ⟨⟨total, totalPagesOf total (limitOf q), pageOf q, limitOf q⟩, ?_, rfl, rfl, rfl, ?_⟩
    · unfold listProducts
      simp only [hcount, hfind]
    · simp only [htp]
      exact hc

/-- C9 (amended) at `page=2&limit=20` with 41 matching products: three pages. -/
theorem C9_pagination_witness :
    ∃ md : Metadata,
      listProducts (sampleStore 41 [] []) [("page", ["2"]), ("limit", ["20"])] = .ok [] md
      ∧ md.limit = 20 ∧ md.current_page = 2 ∧ md.total_items = 41 ∧ md.total_pages = 3 := by
  obtain ⟨md, h1, h2, h3, h4, _, h6, h7, _⟩ :=
    (C9_pagination [("page", ["2"]), ("limit", ["20"])]).2.2.2.2.2.2.2.2
      (sampleStore 41 [] []) 41 [] (by decide) (by decide) rfl rfl
  have hl : md.limit = 20 := by rw [h2]; decide
  have hp : md.current_page = 2 := by rw [h3]; decide
  rw [hl] at h6 h7
  have h3le := h7 3 (by decide) (by decide)
  exact ⟨md, h1, hl, hp, h4, by omega⟩

/-! ## Pairing of `getAllProductsWithPromotion` -/

theorem mem_insertKey (m : List String) (k x : String) :
    x ∈ insertKey m k ↔ x ∈ m ∨ x = k := by
  unfold insertKey
  split_ifs with h
  · constructor
    · exact Or.inl
    · rintro (h1 | rfl)
      · exact h1
      · exact h
  · simp

theorem nodup_insertKey (m : List String) (k : String) (h : m.Nodup) :
    (insertKey m k).Nodup := by
  unfold insertKey
  split_ifs with hk
  · exact h
  · rw [List.nodup_append]
    refine ⟨h, List.nodup_singleton k, ?_⟩
    intro a ha hb
    rw [List.mem_singleton] at hb
    subst hb
    exact absurd ha hk

theorem mem_foldl_insertKey (ks : List String) (m : List String) (x : String) :
    x ∈ ks.foldl insertKey m ↔ x ∈ m ∨ x ∈ ks := by
  induction ks generalizing m with
  | nil => simp
  | cons k rest ih =>
    rw [List.foldl_cons, ih, mem_insertKey, List.mem_cons]
    tauto

theorem nodup_foldl_insertKey (ks : List String) (m : List String) (h : m.Nodup) :
    (ks.foldl insertKey m).Nodup := by
  induction ks generalizing m with
  | nil => exact h
  | cons k rest ih => exact ih _ (nodup_insertKey m k h)

theorem mem_collect (ds : List Discount) (m : List String) (x : String) :
    x ∈ ds.foldl (fun m discount => discount.ApplicableProducts.foldl insertKey m) m
      ↔ x ∈ m ∨ ∃ d ∈ ds, x ∈ d.ApplicableProducts := by
  induction ds generalizing m with
  | nil => simp
  | cons d rest ih =>
    rw [List.foldl_cons, ih, mem_foldl_insertKey]
    simp only [List.mem_cons, exists_eq_or_imp]
    tauto

theorem nodup_collect (ds : List Discount) (m : List String) (h : m.Nodup) :
    (ds.foldl (fun m discount => discount.ApplicableProducts.foldl insertKey m) m).Nodup := by
  induction ds generalizing m with
  | nil => exact h
  | cons d rest ih => exact ih _ (nodup_foldl_insertKey _ m h)

theorem appendIfListed_eq (applicable : List Discount) (discount : Discount)
    (productID : String) (pids : List String) :
    appendIfListed applicable discount productID pids
      = if productID ∈ pids then applicable ++ [discount] else applicable := by
  induction pids with
  | nil => simp [appendIfListed]
  | cons pid rest ih =>
    unfold appendIfListed
    by_cases h : pid = productID
    · simp [h]
    · have h2 : ¬ productID = pid := fun e => h e.symm
      simp [h, h2, ih]

theorem foldl_applicable (ds : List Discount) (acc : List Discount) (productID : String) :
    ds.foldl
        (fun applicable discount =>
          appendIfListed applicable discount productID discount.ApplicableProducts) acc
      = acc ++ ds.filter (fun d => decide (productID ∈ d.ApplicableProducts)) := by
  induction ds generalizing acc with
  | nil => simp
  | cons d rest ih =>
    rw [List.foldl_cons, ih, appendIfListed_eq]
    by_cases h : productID ∈ d.ApplicableProducts
    · simp [h]
    · simp [h]

theorem applicableTo_eq (ds : List Discount) (product : Product) :
    applicableTo ds product
      = ds.filter (fun d => decide (product.ID ∈ d.ApplicableProducts)) := by
  unfold applicableTo
  rw [foldl_applicable]
  rfl

theorem foldl_append_map {α β : Type} (g : α → β) (ps : List α) (acc : List β) :
    ps.foldl (fun acc p => acc ++ [g p]) acc = acc ++ ps.map g := by
  induction ps generalizing acc with
  | nil => simp
  | cons p rest ih =>
    rw [List.foldl_cons, ih]
    simp

/-- C10: with `D` the active discounts and `P` the products the store returns, the response
has one entry per product of `P`, in the order of `P`; the `discounts` of an entry are the
discounts of `D`, in the order of `D`, whose `ApplicableProducts` contains the product ID,
each as often as it occurs in `D` at most; and the IDs queried from the store are the IDs
that occur in some `ApplicableProducts` of `D`, each once. -/
theorem C10_promotion_pairing (env : Store) (currentTime : Time)
    (D : List Discount) (P : List Product)
    (hrange : ∀ keys, (env.rangeOrder keys).Perm keys)
    (hD : env.FindActiveDiscounts currentTime = .ok D)
    (hP : env.FindByIDs (env.rangeOrder (collectIDs D)) = .ok P) :
    ∃ (ids : List String) (items : List ProductWithDiscount),
      getAllProductsWithPromotion env currentTime = ⟨[ids], .ok items⟩
      ∧ ids.Nodup
      ∧ (∀ id, id ∈ ids ↔ ∃ d ∈ D, id ∈ d.ApplicableProducts)
      ∧ items.map ProductWithDiscount.Product = P
      ∧ items = P.map (fun p =>
          ⟨p, D.filter (fun d => decide (p.ID ∈ d.ApplicableProducts))⟩)
      ∧ (∀ item ∈ items, item.Discounts.Sublist D
          ∧ ∀ d, item.Discounts.count d ≤ D.count d) := by
  have hitems : P.foldl
      (fun acc product => acc ++ [(⟨product, applicableTo D product⟩ : ProductWithDiscount)]) []
      = P.map (fun p => ⟨p, D.filter (fun d => decide (p.ID ∈ d.ApplicableProducts))⟩) := by
    rw [foldl_append_map (fun product => (⟨product, applicableTo D product⟩ : ProductWithDiscount))]
    simp only [List.nil_append, applicableTo_eq]
  refine ⟨env.rangeOrder (collectIDs D), _, ?_, ?_, ?_, ?_, rfl, ?_⟩
  · unfold getAllProductsWithPromotion
    simp only [hD, hP, hitems]
  · exact (hrange _).nodup_iff.2 (nodup_collect D [] List.nodup_nil)
  · intro id
    rw [(hrange _).mem_iff]
    unfold collectIDs
    rw [mem_collect]
    simp
  · rw [List.map_map]
    exact List.map_id P
  · intro item hitem
    rw [List.mem_map] at hitem
    obtain ⟨p, _, rfl⟩ := hitem
    exact ⟨List.filter_sublist D, fun d => (List.filter_sublist D).count_le d⟩

/-- C10 with two discounts, the first listing `p1` twice, and the store returning `p2`
before `p1`. -/
theorem C10_promotion_pairing_witness :
    getAllProductsWithPromotion
        (sampleStore 2 [productTwo, productOne] [discountA, discountB]) 50
      = ⟨[["p2", "p1"]],
          .ok [⟨productTwo, [discountA, discountB]⟩, ⟨productOne, [discountA]⟩]⟩ := by
  obtain ⟨ids, items, h1, _, _, _, h5, _⟩ := C10_promotion_pairing
    (sampleStore 2 [productTwo, productOne] [discountA, discountB]) 50
    [discountA, discountB] [productTwo, productOne]
    (fun keys => List.reverse_perm keys) rfl rfl
  rw [h1, h5]
  have hq : (getAllProductsWithPromotion
      (sampleStore 2 [productTwo, productOne] [discountA, discountB]) 50).queried
      = [["p2", "p1"]] := by decide
  rw [h1] at hq
  simp only at hq
  rw [hq]
  decide

end Inventory
